import Mathlib

/-!
Verification of the structural value trimmer of the `logger` package
(`objtrim`-style code: `TrimObject`, `trimObject`, `trimStruct`, `trimMap`,
`trimSlice`, `valOfSpecialType`, `valOfSupportType`, `valOfPrimaryType`,
`isNonValuableType`, `StringLimit`, `visibleName`, and the option API).

The Go value universe is embedded as an inductive type `GoVal`.  Pointers and
interfaces are represented explicitly (`ptrV`, `ifaceV`), since the trimmer's
behavior depends on the reflection kinds `Ptr` and `Interface`.  The special
concrete types recognized by `valOfSpecialType` are atomic constructors
(`errV` for the concrete type of `fmt.Errorf` results, which has pointer kind;
`timeV` for `time.Time`, which has struct kind with no exported fields;
`durV` for `time.Duration`, which has kind `Int64`).  Struct fields carry
their declared name, their `json` tag (the empty string meaning no tag) and
their value; only exported fields are modelled, since `isNonValuableType`
discards non-`CanInterface` values before any processing.  Machine integers
are modelled as unbounded `Int`/`Nat`; float and complex kinds are not
modelled (no verified property concerns them).  Go strings are modelled as
sequences of characters.
-/

/-- GoTime models the components of a `time.Time` that the fixed layout
`"2006-01-02T15:04:05.000"` reads: date, clock and nanoseconds. -/
structure GoTime where
  year : Nat
  month : Nat
  day : Nat
  hour : Nat
  minute : Nat
  second : Nat
  nanos : Nat
deriving Repr, DecidableEq

/-- GoVal is the embedded universe of Go values handled by the trimmer. -/
inductive GoVal where
  | ifaceV (inner : Option GoVal)
  | ptrV (pointee : Option GoVal)
  | boolV (b : Bool)
  | intV (i : Int)
  | uintV (n : Nat)
  | stringV (s : String)
  | errV (msg : String)
  | timeV (t : GoTime)
  | durV (d : Int)
  | structV (fields : List (String × String × GoVal))
  | mapV (entries : List (String × GoVal))
  | bytesV (bs : List Nat)
  | sliceV (elems : List GoVal)
deriving Repr

/-- TrimmedVal is the result universe: the `any` values the trimmer emits
(`nil`, booleans, `int64`/`int`, `uint64`, strings, `[]any`,
`map[string]any`).  Mappings are association lists in emission order. -/
inductive TrimmedVal where
  | null
  | boolT (b : Bool)
  | intT (i : Int)
  | uintT (n : Nat)
  | strT (s : String)
  | seqT (elems : List TrimmedVal)
  | mapT (entries : List (String × TrimmedVal))
deriving Repr

/-- GoType names the concrete types registered in the `var` block beside
`valOfSpecialType` (`stringType`, `errType`, `timeType`, `durationType`,
`bytesType`); every other type is `otherType`. -/
inductive GoType where
  | stringType
  | errType
  | timeType
  | durationType
  | bytesType
  | otherType
deriving Repr, DecidableEq

/-- typeOfGo is the reflection `v.Type()` restricted to the registered
concrete types. -/
def typeOfGo : GoVal → GoType
  | .stringV _ => .stringType
  | .errV _ => .errType
  | .timeV _ => .timeType
  | .durV _ => .durationType
  | .bytesV _ => .bytesType
  | _ => .otherType

/-- StringLimit returns a string with limited length at most
(`StringLimit` in the source): a non-positive limit disables truncation,
a longer string is cut to the first `limit` characters plus `"..."`. -/
def StringLimit (s : String) (limit : Int) : String :=
  if limit ≤ 0 then s
  else if (s.length : Int) > limit then s.take limit.toNat ++ "..." else s

/-- hasPrefixGo is `strings.HasPrefix` on the character sequences: does
`s` start with `pre`? -/
def hasPrefixGo (s pre : String) : Bool :=
  pre.data.isPrefixOf s.data

/-- visibleName decides whether a field or key name is emitted: names in
the ignore set and names starting with the `XXX_` proto-bookkeeping marker
are invisible. -/
def visibleName (filedName : String) (ignores : List String) : Bool :=
  if ignores.length > 0 && ignores.contains filedName then false
  else if hasPrefixGo filedName "XXX_" then false
  else true

/-- fieldKey computes the emitted key of a struct field from its name and
its `json` tag (`trimStruct` lines: tag `"-"` excludes the field, otherwise
the tag up to the first comma overrides the name when non-empty).  `none`
means the field is excluded. -/
def fieldKey (name tag : String) : Option String :=
  if tag ≠ "" then
    if tag = "-" then none
    else
      let t := tag.takeWhile (fun c => c ≠ ',')
      if t ≠ "" then some t else some name
  else some name

/-- isNonValuableType returns true if the value is not valuable: a nil
pointer or a nil interface (the `CanInterface`/`Invalid` cases concern
values outside this embedding). -/
def isNonValuableType : GoVal → Bool
  | .ptrV none => true
  | .ifaceV none => true
  | _ => false

/-- padZero zero-pads the decimal representation of `n` to width `w`, as
the fixed-width verbs of the layout `"2006-01-02T15:04:05.000"` do. -/
def padZero (w n : Nat) : String :=
  let s := toString n
  if s.length < w then String.mk (List.replicate (w - s.length) '0') ++ s else s

/-- timeFormatted renders a `time.Time` with the fixed layout
`"2006-01-02T15:04:05.000"` (millisecond precision, zero-padded). -/
def timeFormatted (t : GoTime) : String :=
  padZero 4 t.year ++ "-" ++ padZero 2 t.month ++ "-" ++ padZero 2 t.day ++ "T"
    ++ padZero 2 t.hour ++ ":" ++ padZero 2 t.minute ++ ":" ++ padZero 2 t.second
    ++ "." ++ padZero 3 (t.nanos / 1000000)

/-- fmtFracGo mirrors `time.fmtFrac`: it formats the `prec` least
significant decimal digits of `v` as a fraction (a dot followed by the
digits, with trailing zeros omitted; nothing when all are zero) and returns
the fraction text together with `v` stripped of those digits. -/
def fmtFracGo (v : Nat) (prec : Nat) : String × Nat :=
  go v prec false ""
where
  go : Nat → Nat → Bool → String → String × Nat
  | v, 0, pr, acc => (if pr then "." ++ acc else acc, v)
  | v, i + 1, pr, acc =>
    let digit := v % 10
    let pr2 := pr || digit != 0
    let acc2 := if pr2 then String.singleton (Char.ofNat (48 + digit)) ++ acc else acc
    go (v / 10) i pr2 acc2

/-- durationString mirrors `time.Duration.String`: the canonical short text
form (`"0s"`, `"ns"`/`"µs"`/`"ms"` below one second with up to 6/3/0
fractional digits, otherwise seconds with up to 9 fractional digits,
prefixed by minutes and hours when non-zero, with a leading `-` when
negative). -/
def durationString (d : Int) : String :=
  let neg := d < 0
  let u : Nat := d.natAbs
  if u < 1000000000 then
    if u = 0 then "0s"
    else if u < 1000 then
      (if neg then "-" else "") ++ toString u ++ "ns"
    else if u < 1000000 then
      let p := fmtFracGo u 3
      (if neg then "-" else "") ++ toString p.2 ++ p.1 ++ "µs"
    else
      let p := fmtFracGo u 6
      (if neg then "-" else "") ++ toString p.2 ++ p.1 ++ "ms"
  else
    let p := fmtFracGo u 9
    let secs := p.2 % 60
    let v1 := p.2 / 60
    let core :=
      if v1 > 0 then
        let v2 := v1 / 60
        (if v2 > 0 then toString v2 ++ "h" else "")
          ++ toString (v1 % 60) ++ "m" ++ toString secs ++ p.1 ++ "s"
      else toString secs ++ p.1 ++ "s"
    (if neg then "-" else "") ++ core

/-- valOfSpecialType returns the rendering of a special type, dispatching
on the exact concrete type: raw strings through `StringLimit`, error values
as their message, `time.Time` through the fixed layout, `time.Duration`
through its canonical text form.  `bytesType`, though registered in the
same `var` block, has no case here. -/
def valOfSpecialType (v : GoVal) (arrLmt strLmt : Int) : Option TrimmedVal :=
  if isNonValuableType v then none
  else
    match v with
    | .stringV s => some (.strT (StringLimit s strLmt))
    | .errV msg => some (.strT msg)
    | .timeV t => some (.strT (timeFormatted t))
    | .durV d => some (.strT (durationString d))
    | _ => none

/-- valOfPrimaryType returns the value of a primary kind, after one level
of pointer unwrapping: bool, the int family (which includes `time.Duration`,
of kind `Int64`, rendered as its nanosecond count), the uint family, and
strings through `StringLimit`. -/
def valOfPrimaryType (v : GoVal) (arrLmt strLmt : Int) : Option TrimmedVal :=
  if isNonValuableType v then none
  else
    let v2 := match v with
      | .ptrV (some x) => x
      | w => w
    match v2 with
    | .boolV b => some (.boolT b)
    | .intV i => some (.intT i)
    | .durV d => some (.intT d)
    | .uintV n => some (.uintT n)
    | .stringV s => some (.strT (StringLimit s strLmt))
    | _ => none

/-- valOfSupportType returns the value of a supported type: special types
first, then primary kinds. -/
def valOfSupportType (v : GoVal) (arrLmt strLmt : Int) : Option TrimmedVal :=
  if isNonValuableType v then none
  else
    match valOfSpecialType v arrLmt strLmt with
    | some val => some val
    | none => valOfPrimaryType v arrLmt strLmt

/-- one_le_sizeOf_list records that every list has size at least 1. -/
theorem one_le_sizeOf_list {α : Type} [SizeOf α] (l : List α) : 1 ≤ sizeOf l := by
  cases l <;> simp_arith

/-- sizeOf_take_le records that a prefix of a list is no larger than the
list, justifying the truncation step of the sequence traversal. -/
theorem sizeOf_take_le {α : Type} [SizeOf α] (l : List α) (n : Nat) :
    sizeOf (l.take n) ≤ sizeOf l := by
  induction l generalizing n with
  | nil => simp
  | cons a t ih =>
    cases n with
    | zero =>
      have := one_le_sizeOf_list (a :: t)
      simpa using this
    | succ m =>
      have := ih m
      simp [List.take]
      omega

/-- one_le_sizeOf_string records that every string has positive size. -/
theorem one_le_sizeOf_string (s : String) : 1 ≤ sizeOf s := by
  cases s; simp

/-- trimSliceBytes is `trimSlice` specialized to a `[]byte` value: every
element has kind `Uint8`, so `valOfSupportType` renders each retained byte
as its unsigned value (`v.Uint()`); the element count is capped at
`arrLmt` exactly as in the generic element loop (the equivalence with the
generic loop is proved below as `trimSliceBytes_eq`). -/
def trimSliceBytes (bs : List Nat) (arrLmt : Int) : List TrimmedVal :=
  if bs.length = 0 then []
  else
    let l : Int := if (bs.length : Int) > arrLmt then arrLmt else (bs.length : Int)
    (bs.take l.toNat).map (fun b => TrimmedVal.uintT b)


/-- one_le_sizeOf_gotime records that every `GoTime` has positive size. -/
theorem one_le_sizeOf_gotime (t : GoTime) : 1 ≤ sizeOf t := by
  cases t; simp_arith

/-- onePtrUnwrap is the single pointer unwrap applied to field, key and
element values (`if fv.Kind() == reflect.Ptr { fv = fv.Elem() }`); the nil
case cannot be reached, the non-valuable values being filtered first. -/
def onePtrUnwrap : GoVal → GoVal
  | .ptrV (some x) => x
  | w => w

/-- onePtrUnwrap_sizeOf_le: unwrapping cannot grow a value. -/
theorem onePtrUnwrap_sizeOf_le (v : GoVal) : sizeOf (onePtrUnwrap v) ≤ sizeOf v := by
  cases v with
  | ptrV w => cases w <;> simp [onePtrUnwrap] <;> omega
  | _ => simp [onePtrUnwrap]

mutual

/-- trimObject is the recursive dispatcher (`trimObject` in the source):
a nil argument yields nil; an interface argument is unboxed the way
`reflect.ValueOf` unboxes `obj any`; then non-valuable values yield nil,
supported types return their bounded scalar, and the remaining values go
through the pointer-unwrapping loop and the kind switch. -/
def trimObject (obj : GoVal) (arrLmt strLmt deepLmt : Int) (ignores : List String) : TrimmedVal :=
  match obj with
  | .ifaceV none => .null
  | .ifaceV (some x) => trimObject x arrLmt strLmt deepLmt ignores
  | v =>
    if isNonValuableType v then .null
    else
      match valOfSupportType v arrLmt strLmt with
      | some val => val
      | none => trimObjectKind v arrLmt strLmt deepLmt ignores
termination_by 8 * sizeOf obj + 1
decreasing_by all_goals simp_wf <;> omega

/-- trimObjectKind is the tail of the dispatcher: the loop
`for v.Kind() == reflect.Ptr { v = v.Elem() }` followed by the kind switch;
struct and map traversal decrement the depth budget, sequence traversal
keeps it, and every other kind (including an interface kind reached behind
a pointer) falls to the default and yields nil.  `errV` has pointer kind
and unwraps to a struct with no exported fields, like `timeV`; a nil
pointer unwraps to an invalid value, which falls to the default. -/
def trimObjectKind (v : GoVal) (arrLmt strLmt deepLmt : Int) (ignores : List String) : TrimmedVal :=
  match v with
  | .ptrV (some x) => trimObjectKind x arrLmt strLmt deepLmt ignores
  | .ptrV none => .null
  | .errV msg => .mapT (trimStruct [] arrLmt strLmt (deepLmt - 1) ignores)
  | .timeV t => .mapT (trimStruct [] arrLmt strLmt (deepLmt - 1) ignores)
  | .structV fs => .mapT (trimStruct fs arrLmt strLmt (deepLmt - 1) ignores)
  | .mapV es => .mapT (trimMap es arrLmt strLmt (deepLmt - 1) ignores)
  | .sliceV xs => .seqT (trimSlice xs arrLmt strLmt deepLmt ignores)
  | .bytesV bs => .seqT (trimSliceBytes bs arrLmt)
  | _ => .null
termination_by 8 * sizeOf v
decreasing_by
  all_goals simp_wf
  all_goals first
    | omega
    | (have h1 := one_le_sizeOf_string msg; omega)
    | (have h1 := one_le_sizeOf_gotime t; omega)

/-- trimStruct traverses a struct (`trimStruct` in the source): an empty
mapping when the depth budget is exhausted (checked before any field is
inspected), otherwise the per-field entries in declaration order. -/
def trimStruct (fields : List (String × String × GoVal)) (arrLmt strLmt deepLmt : Int) (ignores : List String) : List (String × TrimmedVal) :=
  if deepLmt ≤ 0 then []
  else trimStructFields fields arrLmt strLmt deepLmt ignores
termination_by 8 * sizeOf fields + 4
decreasing_by all_goals simp_wf <;> omega

/-- trimStructFields is the field loop of `trimStruct`: fields excluded by
tag `"-"`, invisible names and non-valuable values contribute nothing;
supported types contribute their scalar; the rest are unwrapped one pointer
level and dispatched by kind. -/
def trimStructFields (fields : List (String × String × GoVal)) (arrLmt strLmt deepLmt : Int) (ignores : List String) : List (String × TrimmedVal) :=
  match fields with
  | [] => []
  | (name, tag, fv) :: rest =>
    let out :=
      match fieldKey name tag with
      | none => []
      | some key =>
        if !visibleName key ignores then []
        else if isNonValuableType fv then []
        else
          match valOfSupportType fv arrLmt strLmt with
          | some val => [(key, val)]
          | none => structFieldEntry key (onePtrUnwrap fv) arrLmt strLmt deepLmt ignores
    out ++ trimStructFields rest arrLmt strLmt deepLmt ignores
termination_by 8 * sizeOf fields + 3
decreasing_by
  all_goals simp_wf
  all_goals first
    | omega
    | (have h1 := onePtrUnwrap_sizeOf_le fv; omega)

/-- structFieldEntry is the kind switch of the field loop, applied after
the single pointer unwrap: a value still of pointer kind is dropped; nested
structs and maps (depth decremented) are attached only when non-empty (the
map and slice results are recomputed for the attachment, as in the source);
sequences (same depth) are attached when non-empty together with the
original length under the `"_size__"`-prefixed companion key; interface
values are re-dispatched with decremented depth and attached when non-nil;
all other kinds are ignored. -/
def structFieldEntry (key : String) (fv : GoVal) (arrLmt strLmt deepLmt : Int) (ignores : List String) : List (String × TrimmedVal) :=
  match fv with
  | .ptrV _ => []
  | .errV _ => []
  | .structV fs =>
    let sv := trimStruct fs arrLmt strLmt (deepLmt - 1) ignores
    if sv.length > 0 then [(key, .mapT sv)] else []
  | .timeV t =>
    let sv := trimStruct [] arrLmt strLmt (deepLmt - 1) ignores
    if sv.length > 0 then [(key, .mapT sv)] else []
  | .mapV es =>
    let mv := trimMap es arrLmt strLmt (deepLmt - 1) ignores
    if mv.length > 0 then [(key, .mapT (trimMap es arrLmt strLmt (deepLmt - 1) ignores))]
    else []
  | .sliceV xs =>
    let sv := trimSlice xs arrLmt strLmt deepLmt ignores
    if sv.length > 0 then
      [(key, .seqT (trimSlice xs arrLmt strLmt deepLmt ignores)),
       ("_size__" ++ key, .intT (xs.length : Int))]
    else []
  | .bytesV bs =>
    let sv := trimSliceBytes bs arrLmt
    if sv.length > 0 then
      [(key, .seqT (trimSliceBytes bs arrLmt)),
       ("_size__" ++ key, .intT (bs.length : Int))]
    else []
  | .ifaceV w =>
    match trimObject (.ifaceV w) arrLmt strLmt (deepLmt - 1) ignores with
    | .null => []
    | iv => [(key, iv)]
  | _ => []
termination_by 8 * sizeOf fv + 2
decreasing_by
  all_goals simp_wf
  all_goals first
    | omega
    | (have h1 := one_le_sizeOf_gotime t; omega)

/-- trimMap traverses a string-keyed map (`trimMap` in the source): an
empty mapping when the depth budget is exhausted, otherwise the per-entry
results (the source's kind guard cannot fire here, the argument being a
map's entries; the source's random key order is fixed to entry order). -/
def trimMap (entries : List (String × GoVal)) (arrLmt strLmt deepLmt : Int) (ignores : List String) : List (String × TrimmedVal) :=
  if deepLmt ≤ 0 then []
  else trimMapEntries entries arrLmt strLmt deepLmt ignores
termination_by 8 * sizeOf entries + 4
decreasing_by all_goals simp_wf <;> omega

/-- trimMapEntries is the key loop of `trimMap`: invisible keys and
non-valuable values contribute nothing; supported types contribute their
scalar; the rest are unwrapped one pointer level and dispatched by kind. -/
def trimMapEntries (entries : List (String × GoVal)) (arrLmt strLmt deepLmt : Int) (ignores : List String) : List (String × TrimmedVal) :=
  match entries with
  | [] => []
  | (k, fv) :: rest =>
    let out :=
      if !visibleName k ignores then []
      else if isNonValuableType fv then []
      else
        match valOfSupportType fv arrLmt strLmt with
        | some val => [(k, val)]
        | none => mapEntryVal k (onePtrUnwrap fv) arrLmt strLmt deepLmt ignores
    out ++ trimMapEntries rest arrLmt strLmt deepLmt ignores
termination_by 8 * sizeOf entries + 3
decreasing_by
  all_goals simp_wf
  all_goals first
    | omega
    | (have h1 := onePtrUnwrap_sizeOf_le fv; omega)

/-- mapEntryVal is the kind switch of the key loop, applied after the
single pointer unwrap: a value still of pointer kind is dropped; nested
maps and structs recurse with decremented depth, sequences with the same
depth, interfaces re-dispatch with decremented depth; the results are
attached unconditionally, unlike struct fields. -/
def mapEntryVal (k : String) (fv : GoVal) (arrLmt strLmt deepLmt : Int) (ignores : List String) : List (String × TrimmedVal) :=
  match fv with
  | .ptrV _ => []
  | .errV _ => []
  | .mapV es => [(k, .mapT (trimMap es arrLmt strLmt (deepLmt - 1) ignores))]
  | .structV fs => [(k, .mapT (trimStruct fs arrLmt strLmt (deepLmt - 1) ignores))]
  | .timeV t => [(k, .mapT (trimStruct [] arrLmt strLmt (deepLmt - 1) ignores))]
  | .sliceV xs => [(k, .seqT (trimSlice xs arrLmt strLmt deepLmt ignores))]
  | .bytesV bs => [(k, .seqT (trimSliceBytes bs arrLmt))]
  | .ifaceV w => [(k, trimObject (.ifaceV w) arrLmt strLmt (deepLmt - 1) ignores)]
  | _ => []
termination_by 8 * sizeOf fv + 2
decreasing_by
  all_goals simp_wf
  all_goals first
    | omega
    | (have h1 := one_le_sizeOf_gotime t; omega)

/-- trimSlice traverses a sequence (`trimSlice` in the source): an empty
sequence stays empty, a longer one is truncated to `arrLmt` elements
before the element loop runs (the depth budget is passed through
unchanged). -/
def trimSlice (elems : List GoVal) (arrLmt strLmt deepLmt : Int) (ignores : List String) : List TrimmedVal :=
  if elems.length = 0 then []
  else
    let l : Int := if (elems.length : Int) > arrLmt then arrLmt else (elems.length : Int)
    trimSliceElems (elems.take l.toNat) arrLmt strLmt deepLmt ignores
termination_by 8 * sizeOf elems + 4
decreasing_by
  all_goals simp_wf
  all_goals
    (have h1 := sizeOf_take_le elems
       (Int.toNat (if arrLmt < (List.length elems : Int) then arrLmt else (List.length elems : Int)));
     omega)

/-- trimSliceElems is the element loop of `trimSlice`: non-valuable
elements contribute nothing; supported types contribute their scalar; the
rest are unwrapped one pointer level and dispatched by kind. -/
def trimSliceElems (elems : List GoVal) (arrLmt strLmt deepLmt : Int) (ignores : List String) : List TrimmedVal :=
  match elems with
  | [] => []
  | fv :: rest =>
    let out :=
      if isNonValuableType fv then []
      else
        match valOfSupportType fv arrLmt strLmt with
        | some val => [val]
        | none => sliceElemEntry (onePtrUnwrap fv) arrLmt strLmt deepLmt ignores
    out ++ trimSliceElems rest arrLmt strLmt deepLmt ignores
termination_by 8 * sizeOf elems + 3
decreasing_by
  all_goals simp_wf
  all_goals first
    | omega
    | (have h1 := onePtrUnwrap_sizeOf_le fv; omega)

/-- sliceElemEntry is the kind switch of the element loop, applied after
the single pointer unwrap: a value still of pointer kind is dropped; nested
structs and maps recurse with decremented depth; a nested sequence (array
of array) is dropped entirely; interface elements re-dispatch with
decremented depth and are appended unconditionally. -/
def sliceElemEntry (fv : GoVal) (arrLmt strLmt deepLmt : Int) (ignores : List String) : List TrimmedVal :=
  match fv with
  | .ptrV _ => []
  | .errV _ => []
  | .structV fs => [.mapT (trimStruct fs arrLmt strLmt (deepLmt - 1) ignores)]
  | .timeV t => [.mapT (trimStruct [] arrLmt strLmt (deepLmt - 1) ignores)]
  | .mapV es => [.mapT (trimMap es arrLmt strLmt (deepLmt - 1) ignores)]
  | .sliceV _ => []
  | .bytesV _ => []
  | .ifaceV w => [trimObject (.ifaceV w) arrLmt strLmt (deepLmt - 1) ignores]
  | _ => []
termination_by 8 * sizeOf fv + 2
decreasing_by
  all_goals simp_wf
  all_goals first
    | omega
    | (have h1 := one_le_sizeOf_gotime t; omega)

end

/-- TrimOption is the closed set of option constructors the package
exports (`WithArrLimit`, `WithStrLimit`, `WithDeepLimit`, `WithWholeLimit`,
`WithIgnores`); each is a setter on the `ObjectTrimmer` configuration. -/
inductive TrimOption where
  | withArrLimit (n : Int)
  | withStrLimit (n : Int)
  | withDeepLimit (n : Int)
  | withWholeLimit (n : Int)
  | withIgnores (names : List String)
deriving Repr, DecidableEq

/-- ObjectTrimmer is the configuration bundle of one trim call. -/
structure ObjectTrimmer where
  ArrLimit : Int
  StrLimit : Int
  DeepLimit : Int
  WholeLimit : Int
  Ignores : List String
deriving Repr, DecidableEq

/-- applyOpt applies one option to the configuration, as the corresponding
`TrimOption` closure does. -/
def applyOpt (t : ObjectTrimmer) : TrimOption → ObjectTrimmer
  | .withArrLimit n => ⟨n, t.StrLimit, t.DeepLimit, t.WholeLimit, t.Ignores⟩
  | .withStrLimit n => ⟨t.ArrLimit, n, t.DeepLimit, t.WholeLimit, t.Ignores⟩
  | .withDeepLimit n => ⟨t.ArrLimit, t.StrLimit, n, t.WholeLimit, t.Ignores⟩
  | .withWholeLimit n => ⟨t.ArrLimit, t.StrLimit, t.DeepLimit, n, t.Ignores⟩
  | .withIgnores ns => ⟨t.ArrLimit, t.StrLimit, t.DeepLimit, t.WholeLimit, ns⟩

/-- defaultTrimmer is the default configuration of `TrimObjectWithOpts`:
array cap 3, string cap 128, depth cap 10, whole-payload cap 4096, empty
ignore set. -/
def defaultTrimmer : ObjectTrimmer := ⟨3, 128, 10, 4096, []⟩

/-- trimObjectWithIgnores forwards to the dispatcher (the source also
converts the ignore list to a lookup map; list membership plays that
role here). -/
def trimObjectWithIgnores (obj : GoVal) (arrLmt strLmt deepLmt : Int) (ignores : List String) : TrimmedVal :=
  trimObject obj arrLmt strLmt deepLmt ignores

/-- TrimObjectWithOpts is the public entry point: options are applied in
order over the default configuration, and the dispatcher receives the
array, string and depth caps and the ignore set — the `WholeLimit` field
is not passed on.  The panic-recovery wrapper has no counterpart here,
the embedded computation being total. -/
def TrimObjectWithOpts (obj : GoVal) (opts : List TrimOption) : TrimmedVal :=
  let trimmer := opts.foldl applyOpt defaultTrimmer
  trimObjectWithIgnores obj trimmer.ArrLimit trimmer.StrLimit trimmer.DeepLimit trimmer.Ignores

/-- TrimObject is `TrimObjectWithOpts` with no options. -/
def TrimObject (obj : GoVal) : TrimmedVal :=
  TrimObjectWithOpts obj []

/-- C6: for every limit `L > 0`, a string longer than `L` is cut to its
first `L` characters followed by the `"..."` marker and a string of length
at most `L` is returned unchanged; a limit `L ≤ 0` never truncates. -/
theorem stringLimit_spec (s : String) (L : Int) :
    (0 < L → (L < (s.length : Int) → StringLimit s L = s.take L.toNat ++ "...")
      ∧ ((s.length : Int) ≤ L → StringLimit s L = s))
    ∧ (L ≤ 0 → StringLimit s L = s) := by
  refine ⟨fun hL => ⟨fun hlen => ?_, fun hlen => ?_⟩, fun hL => ?_⟩
  · simp only [StringLimit]
    rw [if_neg (by omega), if_pos (by omega)]
  · simp only [StringLimit]
    rw [if_neg (by omega), if_neg (by omega)]
  · simp only [StringLimit]
    rw [if_pos hL]

/-- stringLimit_spec_witness evaluates the statement at the string
`"hello"` (length 5) and the limit 3. -/
theorem stringLimit_spec_witness :
    StringLimit "hello" 3 = "hel" ++ "..." ∧ StringLimit "hello" 7 = "hello"
      ∧ StringLimit "hello" 0 = "hello" := by
  refine ⟨?_, ?_, ?_⟩
  · have h := ((stringLimit_spec "hello" 3).1 (by norm_num)).1 (by decide)
    simpa using h
  · exact ((stringLimit_spec "hello" 7).1 (by norm_num)).2 (by decide)
  · exact (stringLimit_spec "hello" 0).2 (by norm_num)

/-- C7: a struct and likewise a map trimmed with a non-positive remaining
depth budget yield an empty mapping before any field or key is inspected;
depth exhaustion never yields an error. -/
theorem depth_exhausted_empty_mapping
    (fields : List (String × String × GoVal)) (entries : List (String × GoVal))
    (arrLmt strLmt deepLmt : Int) (ignores : List String) (h : deepLmt ≤ 0) :
    trimStruct fields arrLmt strLmt deepLmt ignores = []
      ∧ trimMap entries arrLmt strLmt deepLmt ignores = [] := by
  constructor
  · rw [trimStruct, if_pos h]
  · rw [trimMap, if_pos h]

/-- depth_exhausted_empty_mapping_witness evaluates the statement on a
one-field struct and a one-entry map at depth 0. -/
theorem depth_exhausted_empty_mapping_witness :
    trimStruct [("A", "", GoVal.intV 1)] 3 128 0 [] = []
      ∧ trimMap [("k", GoVal.intV 1)] 3 128 0 [] = [] :=
  depth_exhausted_empty_mapping [("A", "", GoVal.intV 1)] [("k", GoVal.intV 1)]
    3 128 0 [] (by norm_num)

/-- C5: the special-type check runs before the generic kind dispatch, so a
value of the recognized concrete error type trims to its message text as a
plain string and never to a mapping, a `time.Time` value trims to its
fixed millisecond-precision rendering, and a `time.Duration` value trims
to its canonical short text form. -/
theorem special_types_before_traversal
    (msg : String) (t : GoTime) (dur : Int) (arrLmt strLmt deepLmt : Int)
    (ignores : List String) :
    trimObject (.errV msg) arrLmt strLmt deepLmt ignores = .strT msg
    ∧ trimObject (.timeV t) arrLmt strLmt deepLmt ignores = .strT (timeFormatted t)
    ∧ trimObject (.durV dur) arrLmt strLmt deepLmt ignores = .strT (durationString dur)
    ∧ (∀ entries, trimObject (.errV msg) arrLmt strLmt deepLmt ignores ≠ .mapT entries) := by
  refine ⟨?_, ?_, ?_, ?_⟩ <;>
    simp [trimObject, valOfSupportType, valOfSpecialType, isNonValuableType]

/-- C2: the dispatcher passes the depth budget unchanged across the
sequence boundary while struct and map traversal receive it decremented;
inside the element loop the same budget is used for classification; and an
element that is itself a sequence after the single pointer unwrap is
dropped from the output entirely. -/
theorem trimSlice_depth_budget_and_nested_drop
    (xs : List GoVal) (arrLmt strLmt deepLmt : Int) (ignores : List String) :
    trimObjectKind (.sliceV xs) arrLmt strLmt deepLmt ignores
        = .seqT (trimSlice xs arrLmt strLmt deepLmt ignores)
    ∧ (∀ fs, trimObjectKind (.structV fs) arrLmt strLmt deepLmt ignores
        = .mapT (trimStruct fs arrLmt strLmt (deepLmt - 1) ignores))
    ∧ (∀ es, trimObjectKind (.mapV es) arrLmt strLmt deepLmt ignores
        = .mapT (trimMap es arrLmt strLmt (deepLmt - 1) ignores))
    ∧ trimSlice xs arrLmt strLmt deepLmt ignores
        = trimSliceElems
            (xs.take (if arrLmt < (xs.length : Int) then arrLmt.toNat else xs.length))
            arrLmt strLmt deepLmt ignores
    ∧ (∀ ys, sliceElemEntry (.sliceV ys) arrLmt strLmt deepLmt ignores = [])
    ∧ (∀ bs, sliceElemEntry (.bytesV bs) arrLmt strLmt deepLmt ignores = [])
    ∧ (∀ w, sliceElemEntry (.ptrV w) arrLmt strLmt deepLmt ignores = [])
    ∧ (∀ fs, sliceElemEntry (.structV fs) arrLmt strLmt deepLmt ignores
        = [.mapT (trimStruct fs arrLmt strLmt (deepLmt - 1) ignores)])
    ∧ (∀ k, mapEntryVal k (.sliceV xs) arrLmt strLmt deepLmt ignores
        = [(k, .seqT (trimSlice xs arrLmt strLmt deepLmt ignores))]) := by
  refine ⟨by simp [trimObjectKind], fun fs => by simp [trimObjectKind],
    fun es => by simp [trimObjectKind], ?_, fun ys => by simp [sliceElemEntry],
    fun bs => by simp [sliceElemEntry], fun w => by simp [sliceElemEntry],
    fun fs => by simp [sliceElemEntry], fun k => by simp [mapEntryVal]⟩
  rw [trimSlice]
  rcases Nat.eq_zero_or_pos xs.length with hz | hp
  · rw [if_pos hz]
    have hxs : xs = [] := List.length_eq_zero.mp hz
    subst hxs
    simp [trimSliceElems]
  · rw [if_neg (by omega)]
    rcases lt_or_le arrLmt (xs.length : Int) with hlt | hle
    · rw [if_pos hlt, if_pos hlt]
    · rw [if_neg (by omega), if_neg (by omega)]
      simp

/-- C3 counterexample: a doubly-indirected record (pointer to pointer to a
one-field struct) does not trim to nil — the dispatcher's unwrap loop
strips both indirections and traverses the struct. -/
theorem trimObject_double_pointer_not_null :
    trimObject (.ptrV (some (.ptrV (some (.structV [("A", "", .intV 1)]))))) 3 128 10 []
        = .mapT [("A", .intT 1)]
      ∧ TrimmedVal.mapT [("A", TrimmedVal.intT 1)] ≠ TrimmedVal.null := by
  constructor
  · simp [trimObject, trimObjectKind, trimStruct, trimStructFields, structFieldEntry,
      valOfSupportType, valOfSpecialType, valOfPrimaryType, isNonValuableType, fieldKey,
      visibleName]
    decide
  · simp

/-- C3 amended: the dispatcher unwraps pointer indirections repeatedly (a
loop, not a single unwrap) before shape dispatch, reaching nil only through
a nil pointer; the single-unwrap-then-drop behavior belongs to the field,
key and element positions inside containers, where a value still of
pointer kind after one unwrap is dropped. -/
theorem trimObject_pointer_unwrap_loop
    (v : GoVal) (w : Option GoVal) (arrLmt strLmt deepLmt : Int)
    (ignores : List String) (key k : String) :
    trimObjectKind (.ptrV (some v)) arrLmt strLmt deepLmt ignores
        = trimObjectKind v arrLmt strLmt deepLmt ignores
    ∧ trimObjectKind (.ptrV none) arrLmt strLmt deepLmt ignores = .null
    ∧ structFieldEntry key (.ptrV w) arrLmt strLmt deepLmt ignores = []
    ∧ mapEntryVal k (.ptrV w) arrLmt strLmt deepLmt ignores = []
    ∧ sliceElemEntry (.ptrV w) arrLmt strLmt deepLmt ignores = [] := by
  refine ⟨?_, ?_, ?_, ?_, ?_⟩ <;>
    simp [trimObjectKind, structFieldEntry, mapEntryVal, sliceElemEntry]

/-- trimSliceElems_map_uintV: the element loop renders a list of `Uint8`
kind elements as their unsigned values, one each. -/
theorem trimSliceElems_map_uintV (ys : List Nat) (arrLmt strLmt deepLmt : Int)
    (ignores : List String) :
    trimSliceElems (ys.map GoVal.uintV) arrLmt strLmt deepLmt ignores
      = ys.map TrimmedVal.uintT := by
  induction ys with
  | nil => simp [trimSliceElems]
  | cons b t ih =>
    simp [trimSliceElems, valOfSupportType, valOfSpecialType, valOfPrimaryType,
      isNonValuableType, ih]

/-- trimSliceBytes_eq: the `[]byte` specialization agrees with the generic
sequence traversal applied to the bytes as `Uint8`-kind elements. -/
theorem trimSliceBytes_eq (bs : List Nat) (arrLmt strLmt deepLmt : Int)
    (ignores : List String) :
    trimSliceBytes bs arrLmt = trimSlice (bs.map GoVal.uintV) arrLmt strLmt deepLmt ignores := by
  rw [trimSliceBytes, trimSlice]
  simp only [List.length_map]
  by_cases h : bs.length = 0
  · rw [if_pos h, if_pos h]
  · rw [if_neg h, if_neg h, ← List.map_take, trimSliceElems_map_uintV]

/-- C10: a `[]byte` value has the registered `bytesType`, yet the
special-type formatter has no case for it, so the value falls through to
generic sequence traversal: the result is an ordered sequence of the
leading at-most-`arrLmt` bytes as unsigned integers, never a string
scalar. -/
theorem byte_slice_trims_to_uint_sequence (bs : List Nat) (arrLmt strLmt deepLmt : Int)
    (ignores : List String) :
    typeOfGo (.bytesV bs) = .bytesType
    ∧ valOfSpecialType (.bytesV bs) arrLmt strLmt = none
    ∧ trimObject (.bytesV bs) arrLmt strLmt deepLmt ignores
        = .seqT (trimSliceBytes bs arrLmt)
    ∧ trimSliceBytes bs arrLmt
        = (bs.take (if arrLmt < (bs.length : Int) then arrLmt.toNat else bs.length)).map
            TrimmedVal.uintT
    ∧ (trimSliceBytes bs arrLmt).length ≤ arrLmt.toNat
    ∧ (∀ str, trimObject (.bytesV bs) arrLmt strLmt deepLmt ignores ≠ .strT str) := by
  have hform : trimSliceBytes bs arrLmt
      = (bs.take (if arrLmt < (bs.length : Int) then arrLmt.toNat else bs.length)).map
          TrimmedVal.uintT := by
    rw [trimSliceBytes]
    by_cases h : bs.length = 0
    · have hbs : bs = [] := List.length_eq_zero.mp h
      subst hbs
      simp
    · rw [if_neg h]
      rcases lt_or_le arrLmt (bs.length : Int) with hlt | hle
      · rw [if_pos hlt, if_pos hlt]
      · rw [if_neg (by omega), if_neg (by omega)]
        simp
  have htrim : trimObject (.bytesV bs) arrLmt strLmt deepLmt ignores
      = .seqT (trimSliceBytes bs arrLmt) := by
    simp [trimObject, trimObjectKind, valOfSupportType, valOfSpecialType, valOfPrimaryType,
      isNonValuableType]
  refine ⟨rfl, by simp [valOfSpecialType, isNonValuableType], htrim, hform, ?_, ?_⟩
  · rw [hform]
    simp only [List.length_map, List.length_take]
    rcases lt_or_le arrLmt (bs.length : Int) with hlt | hle
    · rw [if_pos hlt]
      omega
    · rw [if_neg (by omega)]
      omega
  · intro str
    rw [htrim]
    simp

/-- foldl_applyOpt_agree: two configurations that agree on the array,
string and depth caps and the ignore set keep agreeing on them under any
further option list (only `WholeLimit` may differ). -/
theorem foldl_applyOpt_agree (post : List TrimOption) :
    ∀ t₁ t₂ : ObjectTrimmer,
      t₁.ArrLimit = t₂.ArrLimit → t₁.StrLimit = t₂.StrLimit →
      t₁.DeepLimit = t₂.DeepLimit → t₁.Ignores = t₂.Ignores →
      (post.foldl applyOpt t₁).ArrLimit = (post.foldl applyOpt t₂).ArrLimit
      ∧ (post.foldl applyOpt t₁).StrLimit = (post.foldl applyOpt t₂).StrLimit
      ∧ (post.foldl applyOpt t₁).DeepLimit = (post.foldl applyOpt t₂).DeepLimit
      ∧ (post.foldl applyOpt t₁).Ignores = (post.foldl applyOpt t₂).Ignores := by
  induction post with
  | nil =>
    intro t₁ t₂ h1 h2 h3 h4
    exact ⟨h1, h2, h3, h4⟩
  | cons o rest ih =>
    intro t₁ t₂ h1 h2 h3 h4
    cases o <;>
      exact ih _ _ (by simp [applyOpt, h1, h2, h3, h4]) (by simp [applyOpt, h1, h2, h3, h4])
        (by simp [applyOpt, h1, h2, h3, h4]) (by simp [applyOpt, h1, h2, h3, h4])

/-- C4: the whole-payload cap is dead configuration — `TrimObjectWithOpts`
returns the same result whatever argument `WithWholeLimit` receives, in
any position of any option list, since the `WholeLimit` field is never
passed to the traversal. -/
theorem wholeLimit_dead_configuration (obj : GoVal) (pre post : List TrimOption) (n m : Int) :
    TrimObjectWithOpts obj (pre ++ .withWholeLimit n :: post)
      = TrimObjectWithOpts obj (pre ++ .withWholeLimit m :: post) := by
  have hagree := foldl_applyOpt_agree post
    (applyOpt (pre.foldl applyOpt defaultTrimmer) (.withWholeLimit n))
    (applyOpt (pre.foldl applyOpt defaultTrimmer) (.withWholeLimit m))
    (by simp [applyOpt]) (by simp [applyOpt]) (by simp [applyOpt]) (by simp [applyOpt])
  obtain ⟨h1, h2, h3, h4⟩ := hagree
  simp only [TrimObjectWithOpts, trimObjectWithIgnores, List.foldl_append, List.foldl_cons]
  rw [h1, h2, h3, h4]

/-- trimSliceElems_cons spells out one step of the element loop. -/
theorem trimSliceElems_cons (fv : GoVal) (rest : List GoVal)
    (arrLmt strLmt deepLmt : Int) (ignores : List String) :
    trimSliceElems (fv :: rest) arrLmt strLmt deepLmt ignores
      = (if isNonValuableType fv then []
         else
           match valOfSupportType fv arrLmt strLmt with
           | some val => [val]
           | none => sliceElemEntry (onePtrUnwrap fv) arrLmt strLmt deepLmt ignores)
        ++ trimSliceElems rest arrLmt strLmt deepLmt ignores := by
  rw [trimSliceElems]

/-- sliceElemEntry_length_le: one element contributes at most one output
element. -/
theorem sliceElemEntry_length_le (fv : GoVal) (arrLmt strLmt deepLmt : Int)
    (ignores : List String) :
    (sliceElemEntry fv arrLmt strLmt deepLmt ignores).length ≤ 1 := by
  cases fv <;> simp [sliceElemEntry]

/-- trimSliceElems_length_le: the element loop emits at most one output
element per input element. -/
theorem trimSliceElems_length_le (xs : List GoVal) (arrLmt strLmt deepLmt : Int)
    (ignores : List String) :
    (trimSliceElems xs arrLmt strLmt deepLmt ignores).length ≤ xs.length := by
  induction xs with
  | nil => simp [trimSliceElems]
  | cons fv rest ih =>
    rw [trimSliceElems_cons]
    simp only [List.length_append, List.length_cons]
    have hout : (if isNonValuableType fv then []
        else
          match valOfSupportType fv arrLmt strLmt with
          | some val => [val]
          | none => sliceElemEntry (onePtrUnwrap fv) arrLmt strLmt deepLmt ignores).length
        ≤ 1 := by
      split
      · simp
      · split
        · simp
        · exact sliceElemEntry_length_le _ _ _ _ _
    omega

/-- valOfSupportType_isSome_not_nonvaluable: a supported value is
valuable. -/
theorem valOfSupportType_isSome_not_nonvaluable (v : GoVal) (arrLmt strLmt : Int)
    (h : (valOfSupportType v arrLmt strLmt).isSome) : isNonValuableType v = false := by
  by_contra hc
  have hnv : isNonValuableType v = true := by
    cases hx : isNonValuableType v
    · exact absurd hx hc
    · rfl
  simp [valOfSupportType, hnv] at h

/-- trimSliceElems_length_eq: when every element is supported, the element
loop emits exactly one output element per input element. -/
theorem trimSliceElems_length_eq (xs : List GoVal) (arrLmt strLmt deepLmt : Int)
    (ignores : List String)
    (h : ∀ x ∈ xs, (valOfSupportType x arrLmt strLmt).isSome) :
    (trimSliceElems xs arrLmt strLmt deepLmt ignores).length = xs.length := by
  induction xs with
  | nil => simp [trimSliceElems]
  | cons fv rest ih =>
    have hfv := h fv (List.mem_cons_self fv rest)
    obtain ⟨val, hval⟩ := Option.isSome_iff_exists.mp hfv
    have hnv := valOfSupportType_isSome_not_nonvaluable fv arrLmt strLmt hfv
    rw [trimSliceElems_cons]
    rw [hnv]
    simp only [Bool.false_eq_true, if_false, hval, List.length_append, List.length_cons,
      List.length_nil]
    rw [ih (fun x hx => h x (List.mem_cons_of_mem fv hx))]
    omega

/-- trimStructFields_cons spells out one step of the field loop. -/
theorem trimStructFields_cons (name tag : String) (fv : GoVal)
    (rest : List (String × String × GoVal)) (arrLmt strLmt deepLmt : Int)
    (ignores : List String) :
    trimStructFields ((name, tag, fv) :: rest) arrLmt strLmt deepLmt ignores
      = (match fieldKey name tag with
         | none => []
         | some key =>
           if !visibleName key ignores then []
           else if isNonValuableType fv then []
           else
             match valOfSupportType fv arrLmt strLmt with
             | some val => [(key, val)]
             | none => structFieldEntry key (onePtrUnwrap fv) arrLmt strLmt deepLmt ignores)
        ++ trimStructFields rest arrLmt strLmt deepLmt ignores := by
  rw [trimStructFields]

/-- trimStructFields_append: fields are processed independently of one
another, so the loop distributes over concatenation. -/
theorem trimStructFields_append (l1 l2 : List (String × String × GoVal))
    (arrLmt strLmt deepLmt : Int) (ignores : List String) :
    trimStructFields (l1 ++ l2) arrLmt strLmt deepLmt ignores
      = trimStructFields l1 arrLmt strLmt deepLmt ignores
        ++ trimStructFields l2 arrLmt strLmt deepLmt ignores := by
  induction l1 with
  | nil => simp [trimStructFields]
  | cons f rest ih =>
    obtain ⟨name, tag, fv⟩ := f
    rw [List.cons_append, trimStructFields_cons, trimStructFields_cons, ih, List.append_assoc]

/-- structFieldEntry_slice: a slice field whose trimmed form is non-empty
is attached together with the original length under the companion size
key. -/
theorem structFieldEntry_slice (key : String) (xs : List GoVal)
    (arrLmt strLmt deepLmt : Int) (ignores : List String)
    (h : trimSlice xs arrLmt strLmt deepLmt ignores ≠ []) :
    structFieldEntry key (.sliceV xs) arrLmt strLmt deepLmt ignores
      = [(key, .seqT (trimSlice xs arrLmt strLmt deepLmt ignores)),
         ("_size__" ++ key, .intT (xs.length : Int))] := by
  have hlen : 0 < (trimSlice xs arrLmt strLmt deepLmt ignores).length :=
    List.length_pos.mpr h
  rw [structFieldEntry]
  simp only [gt_iff_lt]
  rw [if_pos hlen]

/-- C1 counterexample: a sequence of length 4 (longer than the default
array cap 3) whose elements are themselves sequences trims to an *empty*
sequence — nested sequences are dropped from the element loop — so the
trimmed length is 0, not `arrayLimit`. -/
theorem trimSlice_overlong_length_cex :
    TrimObject (.sliceV [.sliceV [], .sliceV [], .sliceV [], .sliceV []]) = .seqT []
      ∧ defaultTrimmer.ArrLimit
          < (([GoVal.sliceV [], .sliceV [], .sliceV [], .sliceV []] : List GoVal).length : Int)
      ∧ ([] : List TrimmedVal).length ≠ defaultTrimmer.ArrLimit.toNat := by
  refine ⟨?_, by simp [defaultTrimmer], by simp [defaultTrimmer]⟩
  simp [TrimObject, TrimObjectWithOpts, trimObjectWithIgnores, defaultTrimmer, trimObject,
    trimObjectKind, trimSlice, trimSliceElems, sliceElemEntry, onePtrUnwrap, valOfSupportType,
    valOfSpecialType, valOfPrimaryType, isNonValuableType]

/-- C1 amended: a sequence longer than `arrayLimit` trims to at *most*
`arrayLimit` elements, with equality when every element is of a supported
type (elements may be dropped by the element loop); and whenever a slice
struct field's trimmed form is non-empty, the output mapping binds the
companion key `"_size__" + k` to the original pre-truncation length. -/
theorem trimSlice_overlong_spec (xs : List GoVal) (arrLmt strLmt deepLmt : Int)
    (ignores : List String) (key : String)
    (pre post : List (String × String × GoVal))
    (h : arrLmt < (xs.length : Int)) :
    (trimSlice xs arrLmt strLmt deepLmt ignores).length ≤ arrLmt.toNat
    ∧ ((∀ x ∈ xs, (valOfSupportType x arrLmt strLmt).isSome) →
        (trimSlice xs arrLmt strLmt deepLmt ignores).length = arrLmt.toNat)
    ∧ (trimSlice xs arrLmt strLmt deepLmt ignores ≠ [] →
        structFieldEntry key (.sliceV xs) arrLmt strLmt deepLmt ignores
          = [(key, .seqT (trimSlice xs arrLmt strLmt deepLmt ignores)),
             ("_size__" ++ key, .intT (xs.length : Int))])
    ∧ (trimSlice xs arrLmt strLmt deepLmt ignores ≠ [] → 0 < deepLmt →
        visibleName key ignores = true →
        ("_size__" ++ key, TrimmedVal.intT (xs.length : Int))
          ∈ trimStruct (pre ++ (key, "", .sliceV xs) :: post) arrLmt strLmt deepLmt ignores) := by
  by_cases hz : xs.length = 0
  case pos =>
    have hxs : xs = [] := List.length_eq_zero.mp hz
    subst hxs
    have ha : arrLmt < 0 := by simpa using h
    have htn : arrLmt.toNat = 0 := by omega
    have hempty : trimSlice [] arrLmt strLmt deepLmt ignores = [] := by
      rw [trimSlice]
      simp
    exact ⟨by rw [hempty]; simp, fun _ => by rw [hempty]; simp [htn],
      fun hne => absurd hempty hne, fun hne _ _ => absurd hempty hne⟩
  have hslice : trimSlice xs arrLmt strLmt deepLmt ignores
      = trimSliceElems (xs.take arrLmt.toNat) arrLmt strLmt deepLmt ignores := by
    rw [trimSlice, if_neg hz, if_pos h]
  refine ⟨?_, ?_, structFieldEntry_slice key xs arrLmt strLmt deepLmt ignores, ?_⟩
  · rw [hslice]
    have h1 := trimSliceElems_length_le (xs.take arrLmt.toNat) arrLmt strLmt deepLmt ignores
    have h2 : (xs.take arrLmt.toNat).length ≤ arrLmt.toNat := by
      simp [List.length_take]
    omega
  · intro hsup
    rw [hslice]
    rw [trimSliceElems_length_eq _ _ _ _ _
      (fun x hx => hsup x (List.take_subset arrLmt.toNat xs hx))]
    simp only [List.length_take]
    omega
  · intro hne hd hvis
    rw [trimStruct, if_neg (by omega), trimStructFields_append, trimStructFields_cons]
    have hkey : fieldKey key "" = some key := by simp [fieldKey]
    rw [hkey]
    simp only [hvis, Bool.not_true, Bool.false_eq_true, if_false]
    have hnv : isNonValuableType (GoVal.sliceV xs) = false := rfl
    rw [hnv]
    have hsupn : valOfSupportType (.sliceV xs) arrLmt strLmt = none := rfl
    simp only [Bool.false_eq_true, if_false, hsupn]
    have hunwrap : onePtrUnwrap (.sliceV xs) = .sliceV xs := rfl
    rw [hunwrap, structFieldEntry_slice key xs arrLmt strLmt deepLmt ignores hne]
    simp

/-- trimSlice_overlong_spec_witness evaluates the statement on the field
`items` holding a four-element int sequence with the default caps: the
companion key `_size__items` is bound to 4. -/
theorem trimSlice_overlong_spec_witness :
    ("_size__items", TrimmedVal.intT 4)
      ∈ trimStruct [("items", "", GoVal.sliceV [.intV 1, .intV 2, .intV 3, .intV 4])]
          3 128 10 [] := by
  have h := trimSlice_overlong_spec [GoVal.intV 1, .intV 2, .intV 3, .intV 4]
    3 128 10 [] "items" [] [] (by simp)
  have hne : trimSlice [GoVal.intV 1, .intV 2, .intV 3, .intV 4] 3 128 10 [] ≠ [] := by
    simp [trimSlice, trimSliceElems, onePtrUnwrap, valOfSupportType, valOfSpecialType,
      valOfPrimaryType, isNonValuableType]
  have h4 := h.2.2.2 hne (by norm_num) (by simp [visibleName]; decide)
  simpa using h4

/-- structFieldEntry_key_mem: every entry a field contributes is keyed by
the field's computed key or by its `"_size__"` companion. -/
theorem structFieldEntry_key_mem (key : String) (fv : GoVal) (arrLmt strLmt deepLmt : Int)
    (ignores : List String) (k : String) (v : TrimmedVal)
    (h : (k, v) ∈ structFieldEntry key fv arrLmt strLmt deepLmt ignores) :
    k = key ∨ k = "_size__" ++ key := by
  cases fv
  case ifaceV w =>
    simp only [structFieldEntry] at h
    revert h
    cases trimObject (GoVal.ifaceV w) arrLmt strLmt (deepLmt - 1) ignores <;> intro h <;>
      simp at h <;> tauto
  all_goals (simp [structFieldEntry] at h <;> try tauto)

/-- mapEntryVal_key_mem: every entry a map key contributes is keyed by
that key. -/
theorem mapEntryVal_key_mem (kk : String) (fv : GoVal) (arrLmt strLmt deepLmt : Int)
    (ignores : List String) (k : String) (v : TrimmedVal)
    (h : (k, v) ∈ mapEntryVal kk fv arrLmt strLmt deepLmt ignores) :
    k = kk := by
  cases fv <;> simp [mapEntryVal] at h <;> try tauto

/-- trimMapEntries_cons spells out one step of the key loop. -/
theorem trimMapEntries_cons (k : String) (fv : GoVal) (rest : List (String × GoVal))
    (arrLmt strLmt deepLmt : Int) (ignores : List String) :
    trimMapEntries ((k, fv) :: rest) arrLmt strLmt deepLmt ignores
      = (if !visibleName k ignores then []
         else if isNonValuableType fv then []
         else
           match valOfSupportType fv arrLmt strLmt with
           | some val => [(k, val)]
           | none => mapEntryVal k (onePtrUnwrap fv) arrLmt strLmt deepLmt ignores)
        ++ trimMapEntries rest arrLmt strLmt deepLmt ignores := by
  rw [trimMapEntries]

/-- trimStructFields_mem_key: every key in the field loop's output is a
visible computed field key or the `"_size__"` companion of one. -/
theorem trimStructFields_mem_key (fields : List (String × String × GoVal))
    (arrLmt strLmt deepLmt : Int) (ignores : List String) (k : String) (v : TrimmedVal)
    (h : (k, v) ∈ trimStructFields fields arrLmt strLmt deepLmt ignores) :
    visibleName k ignores = true
      ∨ ∃ key, visibleName key ignores = true ∧ k = "_size__" ++ key := by
  induction fields with
  | nil => simp [trimStructFields] at h
  | cons f rest ih =>
    obtain ⟨name, tag, fv⟩ := f
    rw [trimStructFields_cons] at h
    rcases List.mem_append.mp h with hmem | hmem
    · cases hfk : fieldKey name tag with
      | none =>
        simp only [hfk] at hmem
        simp at hmem
      | some key =>
        simp only [hfk] at hmem
        cases hvis : visibleName key ignores with
        | false =>
          rw [hvis] at hmem
          simp at hmem
        | true =>
          rw [hvis] at hmem
          simp only [Bool.not_true, Bool.false_eq_true, if_false] at hmem
          have hks : k = key ∨ k = "_size__" ++ key := by
            cases hnv : isNonValuableType fv with
            | true =>
              rw [hnv] at hmem
              simp at hmem
            | false =>
              rw [hnv] at hmem
              simp only [Bool.false_eq_true, if_false] at hmem
              cases hsup : valOfSupportType fv arrLmt strLmt with
              | some val =>
                simp only [hsup] at hmem
                simp at hmem
                exact Or.inl hmem.1
              | none =>
                simp only [hsup] at hmem
                exact structFieldEntry_key_mem key (onePtrUnwrap fv) arrLmt strLmt deepLmt
                  ignores k v hmem
          rcases hks with hk | hk
          · subst hk
            exact Or.inl hvis
          · exact Or.inr ⟨key, hvis, hk⟩
    · exact ih hmem

/-- trimMapEntries_mem_key: every key in the key loop's output is a
visible map key. -/
theorem trimMapEntries_mem_key (entries : List (String × GoVal))
    (arrLmt strLmt deepLmt : Int) (ignores : List String) (k : String) (v : TrimmedVal)
    (h : (k, v) ∈ trimMapEntries entries arrLmt strLmt deepLmt ignores) :
    visibleName k ignores = true := by
  induction entries with
  | nil => simp [trimMapEntries] at h
  | cons e rest ih =>
    obtain ⟨kk, fv⟩ := e
    rw [trimMapEntries_cons] at h
    rcases List.mem_append.mp h with hmem | hmem
    · cases hvis : visibleName kk ignores with
      | false =>
        rw [hvis] at hmem
        simp at hmem
      | true =>
        rw [hvis] at hmem
        simp only [Bool.not_true, Bool.false_eq_true, if_false] at hmem
        have hk : k = kk := by
          cases hnv : isNonValuableType fv with
          | true =>
            rw [hnv] at hmem
            simp at hmem
          | false =>
            rw [hnv] at hmem
            simp only [Bool.false_eq_true, if_false] at hmem
            cases hsup : valOfSupportType fv arrLmt strLmt with
            | some val =>
              simp only [hsup] at hmem
              simp at hmem
              exact hmem.1
            | none =>
              simp only [hsup] at hmem
              exact mapEntryVal_key_mem kk (onePtrUnwrap fv) arrLmt strLmt deepLmt
                ignores k v hmem
        subst hk
        exact hvis
    · exact ih hmem

/-- C8 counterexample: with the name `_size__a` in the ignore set, a
struct whose field `a` holds a non-empty sequence still emits an entry
keyed `_size__a` — the synthesized companion size key bypasses the
visibility filter. -/
theorem ignored_size_key_still_emitted :
    trimStruct [("a", "", .sliceV [.intV 1, .intV 2])] 3 128 10 ["_size__a"]
        = [("a", .seqT [.intT 1, .intT 2]), ("_size__a", .intT 2)]
      ∧ visibleName "_size__a" ["_size__a"] = false := by
  constructor
  · simp [trimStruct, trimStructFields, structFieldEntry, trimSlice, trimSliceElems,
      onePtrUnwrap, valOfSupportType, valOfSpecialType, valOfPrimaryType, isNonValuableType,
      fieldKey, visibleName, hasPrefixGo] <;> decide
  · decide

/-- C8 amended: every entry emitted at a struct level is keyed by a
visible computed field name or by the `"_size__"` companion of one (the
companion keys bypass the visibility filter, so an ignored name of that
shape can still appear); every entry emitted at a map level is keyed by a
visible key, with no exception. -/
theorem visibility_filter_on_declared_names (fields : List (String × String × GoVal))
    (entriesM : List (String × GoVal)) (arrLmt strLmt deepLmt : Int)
    (ignores : List String) (k : String) (v : TrimmedVal) :
    ((k, v) ∈ trimStruct fields arrLmt strLmt deepLmt ignores →
        visibleName k ignores = true
          ∨ ∃ key, visibleName key ignores = true ∧ k = "_size__" ++ key)
      ∧ ((k, v) ∈ trimMap entriesM arrLmt strLmt deepLmt ignores →
        visibleName k ignores = true) := by
  constructor
  · intro h
    rw [trimStruct] at h
    by_cases hd : deepLmt ≤ 0
    · rw [if_pos hd] at h
      simp at h
    · rw [if_neg hd] at h
      exact trimStructFields_mem_key fields arrLmt strLmt deepLmt ignores k v h
  · intro h
    rw [trimMap] at h
    by_cases hd : deepLmt ≤ 0
    · rw [if_pos hd] at h
      simp at h
    · rw [if_neg hd] at h
      exact trimMapEntries_mem_key entriesM arrLmt strLmt deepLmt ignores k v h

/-- visibility_filter_on_declared_names_witness applies the statement to
a one-field struct with an unrelated ignore set. -/
theorem visibility_filter_on_declared_names_witness :
    visibleName "a" ["b"] = true
      ∨ ∃ key, visibleName key ["b"] = true ∧ "a" = "_size__" ++ key := by
  refine (visibility_filter_on_declared_names [("a", "", GoVal.intV 1)] [] 3 128 10 ["b"]
    "a" (TrimmedVal.intT 1)).1 ?_
  simp [trimStruct, trimStructFields, valOfSupportType, valOfSpecialType, valOfPrimaryType,
    isNonValuableType, fieldKey, visibleName, hasPrefixGo, onePtrUnwrap] <;> decide

/-- PtrCell is one cell of a pointer heap.  Go permits pointer values that
refer to pointer-typed variables of the same named type (`type P *P`), so
the dispatcher's unwrap loop must be analysed over a heap whose cells may
refer to one another: a cell holds either a pointer to another cell or a
non-pointer base value. -/
inductive PtrCell where
  | toCell (addr : Nat)
  | toBase (v : GoVal)
deriving Repr

/-- UnwrapTerminates heap a holds exactly when the dispatcher's loop
`for v.Kind() == reflect.Ptr { v = v.Elem() }`, started on the pointer
stored in cell `a`, reaches a non-pointer value after finitely many
`Elem()` steps. -/
inductive UnwrapTerminates (heap : List PtrCell) : Nat → Prop where
  | base (a : Nat) (v : GoVal) : heap[a]? = some (.toBase v) → UnwrapTerminates heap a
  | step (a b : Nat) : heap[a]? = some (.toCell b) → UnwrapTerminates heap b →
      UnwrapTerminates heap a

/-- unwrapLoop runs the same loop with explicit fuel: it returns the
non-pointer value reached, or `none` when the fuel runs out (or a dangling
address is followed, which cannot arise on well-formed heaps). -/
def unwrapLoop (heap : List PtrCell) : Nat → Nat → Option GoVal
  | 0, _ => none
  | fuel + 1, a =>
    match heap[a]? with
    | some (.toBase v) => some v
    | some (.toCell b) => unwrapLoop heap fuel b
    | none => none

/-- C9: the dispatcher's pointer-unwrap loop diverges on a self-referential
pointer (heap cell 0 pointing to itself — the value `p` of Go type
`type P *P` after `p = &p`): the loop never reaches a non-pointer value
whatever fuel it is given, so the trim computation fails to terminate on
that cyclic input even though every recursive call through a struct, map
or interface boundary decreases the depth budget. -/
theorem pointer_unwrap_loop_diverges_on_cycle :
    (¬ UnwrapTerminates [PtrCell.toCell 0] 0)
      ∧ ∀ fuel, unwrapLoop [PtrCell.toCell 0] fuel 0 = none := by
  constructor
  · intro h
    have key : ∀ a, UnwrapTerminates [PtrCell.toCell 0] a → a = 0 → False := by
      intro a ha
      induction ha with
      | base a v hget =>
        intro h0
        subst h0
        simp at hget
      | step a b hget hterm ih =>
        intro h0
        subst h0
        simp at hget
        exact ih hget.symm
    exact key 0 h rfl
  · intro fuel
    induction fuel with
    | zero => rfl
    | succ n ih => simp [unwrapLoop, ih]
